import Mathlib

/-!
Verification of the secret-expiration controller
(`internal/controller/secret_controller.go`).

Shallow embedding conventions:
* Instants and durations are integer nanoseconds (`Int`).  Go's
  `time.Duration` is a signed 64-bit nanosecond count; where the Go code can
  overflow or saturate 64-bit arithmetic this is modelled explicitly
  (`wrap64`, `goSub`).
* Go computes day counts as `int(d.Hours() / 24)`: a float64 division whose
  result is converted to `int` by truncation toward zero.  At the magnitudes
  involved the float computation is exact except at sub-nanosecond distances
  from a 24h boundary, so it is modelled as exact truncated integer division
  (`truncDivNs`).
* Fallible Go functions returning `(T, error)` or `(T, bool)` are modelled
  with `Option`/`Except` or an explicit `Bool`.
* The Go standard-library helpers the controller calls (`strconv.Atoi`,
  `time.ParseDuration`, `time.Parse` with layout `"2006-01-02"`,
  `time.Time.Sub`) are translated here from their documented / upstream
  semantics, since the controller's behaviour depends on them.
-/

/-- Signed 64-bit wrap-around, as Go integer arithmetic performs on
`time.Duration` multiplication. -/
def wrap64 (n : Int) : Int :=
  (n + 9223372036854775808) % 18446744073709551616 - 9223372036854775808

/-- Truncating division of a signed nanosecond count by a positive divisor:
the semantics of Go's `int(d.Hours() / 24)` (float conversion to `int`
truncates toward zero). -/
def truncDivNs (a : Int) (n : Nat) : Int :=
  if 0 ≤ a then ((a.toNat / n : Nat) : Int) else -(((-a).toNat / n : Nat) : Int)

/-- Go `time.Time.Sub`: the difference of two instants as a `time.Duration`,
saturated to the signed 64-bit range (`minDuration`/`maxDuration`). -/
def goSub (t u : Int) : Int :=
  if t - u < -9223372036854775808 then -9223372036854775808
  else if t - u > 9223372036854775807 then 9223372036854775807
  else t - u

/-- Go `strconv.Atoi`: optional sign, decimal digits, value must fit in a
signed 64-bit `int`. -/
def goAtoi (s : List Char) : Option Int :=
  let signDigs : Bool × List Char :=
    match s with
    | '-' :: t => (true, t)
    | '+' :: t => (false, t)
    | _ => (false, s)
  let neg := signDigs.1
  let digs := signDigs.2
  if digs = [] then none
  else if digs.all Char.isDigit then
    let n : Nat := digs.foldl (fun a c => a * 10 + (c.toNat - 48)) 0
    let v : Int := if neg then -(n : Int) else (n : Int)
    if v < -9223372036854775808 then none
    else if v > 9223372036854775807 then none
    else some v
  else none

/-! Model of Go `time.ParseDuration` (`time/format.go`).  The grammar is
`[-+]?([0-9]*(\.[0-9]*)?[a-z]+)+` with units ns/us/µs/ms/s/m/h and unsigned
64-bit overflow checks.  The only deviation: Go computes the fractional
contribution as `uint64(float64(f) * (float64(unit) / scale))`; here it is
the exact floor `f * unit / scale`. -/

/-- Character that can start neither a number nor a fraction: anything other
than an ASCII digit or a dot. -/
def nonNumChar (c : Char) : Bool := !(c = '.' || c.isDigit)

/-- Digit accumulator of Go's `leadingInt`, with its unsigned-64-bit overflow
checks (`x > 1<<63/10` before the step, `x > 1<<63` after). -/
def accDigits : List Char → Nat → Option Nat
  | [], x => some x
  | c :: t, x =>
    if x > 922337203685477580 then none
    else
      let y := x * 10 + (c.toNat - 48)
      if y > 9223372036854775808 then none else accDigits t y

/-- Go `leadingInt`: consume leading digits of `s`, returning the value and
the rest; `none` on unsigned-64-bit overflow. -/
def goLeadingInt (s : List Char) : Option (Nat × List Char) :=
  (accDigits (s.takeWhile Char.isDigit) 0).map (fun v => (v, s.dropWhile Char.isDigit))

/-- Digit accumulator of Go's `leadingFraction`: on overflow it stops
updating value and scale but keeps consuming digits. -/
def accFrac : List Char → Nat → Nat → Bool → Nat × Nat
  | [], x, sc, _ => (x, sc)
  | c :: t, x, sc, ov =>
    if ov then accFrac t x sc true
    else if x > 922337203685477580 then accFrac t x sc true
    else
      let y := x * 10 + (c.toNat - 48)
      if y > 9223372036854775808 then accFrac t x sc true
      else accFrac t y (sc * 10) false

/-- Go `leadingFraction`: consume digits after the decimal point, returning
(value, scale, rest). -/
def goLeadingFraction (s : List Char) : Nat × Nat × List Char :=
  let p := accFrac (s.takeWhile Char.isDigit) 0 1 false
  (p.1, p.2, s.dropWhile Char.isDigit)

/-- Go `unitMap`: nanoseconds per duration unit. -/
def unitMap : List Char → Option Nat
  | ['n', 's'] => some 1
  | ['u', 's'] => some 1000
  | ['µ', 's'] => some 1000
  | ['μ', 's'] => some 1000
  | ['m', 's'] => some 1000000
  | ['s'] => some 1000000000
  | ['m'] => some 60000000000
  | ['h'] => some 3600000000000
  | _ => none

/-- One `number [fraction] unit` item of Go's `ParseDuration` loop, after the
digits have been read: `v` integer part, `f`/`scale` fraction, `preOrPost`
whether any digit was consumed, `s2` the rest of the input.  Returns the
item's nanosecond value and the remaining input. -/
def parseNumUnit (v f scale : Nat) (preOrPost : Bool) (s2 : List Char) :
    Option (Nat × List Char) :=
  if !preOrPost then none
  else if s2.takeWhile nonNumChar = [] then none
  else
    match unitMap (s2.takeWhile nonNumChar) with
    | none => none
    | some unit =>
      if v > 9223372036854775808 / unit then none
      else if f > 0 then
        if v * unit + f * unit / scale > 9223372036854775808 then none
        else some (v * unit + f * unit / scale, s2.dropWhile nonNumChar)
      else some (v * unit, s2.dropWhile nonNumChar)

/-- One full iteration of Go's `ParseDuration` loop on a non-empty input:
leading digits, optional fraction, unit. -/
def parseOne : List Char → Option (Nat × List Char)
  | [] => none
  | c :: tl =>
    if nonNumChar c then none
    else
      match goLeadingInt (c :: tl) with
      | none => none
      | some (v, s1) =>
        match s1 with
        | '.' :: t =>
          parseNumUnit v (goLeadingFraction t).1 (goLeadingFraction t).2.1
            ((('.' :: t).length != (c :: tl).length)
              || ((goLeadingFraction t).2.2.length != t.length))
            (goLeadingFraction t).2.2
        | s1x => parseNumUnit v 0 1 (s1x.length != (c :: tl).length) s1x

/-- Go `ParseDuration`'s main loop, accumulating the unsigned total `d` with
its `d > 1<<63` check.  Structural recursion on a fuel argument; every
iteration consumes at least one character (`parseOne_rest_lt` below), so fuel
`s.length` never runs out. -/
def parseLoopF : Nat → List Char → Nat → Option Nat
  | 0, _, _ => none
  | fuel + 1, s, d =>
    match parseOne s with
    | none => none
    | some (v, rest) =>
      if d + v > 9223372036854775808 then none
      else if rest.isEmpty then some (d + v)
      else parseLoopF fuel rest (d + v)

/-- Continuation of Go `time.ParseDuration` after the optional sign:
special case `"0"`, empty input is an error, then the item loop; a negative
result may reach `-2^63`, a positive one is capped at `2^63 - 1`. -/
def goParseDurationTail (neg : Bool) (s : List Char) : Option Int :=
  if s = ['0'] then some 0
  else if s = [] then none
  else
    match parseLoopF s.length s 0 with
    | none => none
    | some d =>
      if neg then some (-(d : Int))
      else if d > 9223372036854775807 then none
      else some (d : Int)

/-- Go `time.ParseDuration`: optional sign, then `goParseDurationTail`. -/
def goParseDuration (str : String) : Option Int :=
  match str.data with
  | '-' :: t => goParseDurationTail true t
  | '+' :: t => goParseDurationTail false t
  | s0 => goParseDurationTail false s0

/-- The repository's `parseDuration` (`secret_controller.go:324-334`): if the
string has length above one and ends in `'d'`, the front is parsed with
`strconv.Atoi` and multiplied by 24 hours in Go's wrapping signed 64-bit
arithmetic; otherwise `time.ParseDuration` decides. -/
def parseDuration (w : String) : Option Int :=
  let s := w.data
  if s.length > 1 && (s.getLast? == some 'd') then
    match goAtoi s.dropLast with
    | none => none
    | some days => some (wrap64 (days * 86400000000000))
  else goParseDuration w

/-! Calendar model: Go `time.Parse("2006-01-02", v)` yields midnight UTC of
the given date; instants are nanoseconds since the Unix epoch, computed with
the proleptic Gregorian day count Go's `time.Date` uses. -/

/-- Gregorian leap-year rule (Go `isLeap`). -/
def isLeapYear (y : Int) : Bool := y % 4 = 0 && (y % 100 ≠ 0 || y % 400 = 0)

/-- Cumulative days before month `m` (1-12) in a non-leap year
(Go `daysBefore`). -/
def daysBeforeMonth (m : Nat) : Nat :=
  [0, 0, 31, 59, 90, 120, 151, 181, 212, 243, 273, 304, 334].getD m 0

/-- Number of days of month `m` (1-12) of year `y` (Go `daysIn`). -/
def daysInMonth (y : Int) (m : Nat) : Nat :=
  if m = 2 then (if isLeapYear y then 29 else 28)
  else [0, 31, 28, 31, 30, 31, 30, 31, 31, 30, 31, 30, 31].getD m 0

/-- Days from 1970-01-01 to year `y`, month `m`, day `d` (proleptic
Gregorian; 719162 days separate 0001-01-01 from the Unix epoch). -/
def daysSinceEpoch (y : Int) (m d : Nat) : Int :=
  (y - 1) * 365 + Int.fdiv (y - 1) 4 - Int.fdiv (y - 1) 100 + Int.fdiv (y - 1) 400
    + (daysBeforeMonth m : Int)
    + (if isLeapYear y && decide (m > 2) then 1 else 0)
    + ((d : Int) - 1) - 719162

/-- Nanoseconds since the Unix epoch of midnight UTC on a given date. -/
def dateToNs (y : Int) (m d : Nat) : Int := daysSinceEpoch y m d * 86400000000000

/-- Numeric value of an ASCII digit character. -/
def digitVal (c : Char) : Nat := c.toNat - 48

/-- Go `time.Parse("2006-01-02", v)`: exactly ten characters
`dddd-dd-dd` (all `d` ASCII digits, no sign), a month in 1..12 and a day in
range for that month and year; any other input is an error.  Returns the
parsed instant (midnight UTC) in nanoseconds since the epoch. -/
def goParseDate (v : String) : Option Int :=
  match v.data with
  | [y1, y2, y3, y4, '-', m1, m2, '-', d1, d2] =>
    if (y1.isDigit && y2.isDigit && y3.isDigit && y4.isDigit
        && m1.isDigit && m2.isDigit && d1.isDigit && d2.isDigit) then
      let y : Int :=
        ((digitVal y1 * 1000 + digitVal y2 * 100 + digitVal y3 * 10 + digitVal y4 : Nat) : Int)
      let m : Nat := digitVal m1 * 10 + digitVal m2
      let d : Nat := digitVal d1 * 10 + digitVal d2
      if 1 ≤ m ∧ m ≤ 12 then
        if 1 ≤ d ∧ d ≤ daysInMonth y m then some (dateToNs y m d)
        else none
      else none
    else none
  | _ => none

/-! The controller's data model. -/

/-- A `corev1.Secret` as the controller sees it: identity, version marker,
annotations, plus the payload fields the classifier must not depend on. -/
structure GoSecret where
  name : String
  ns : String
  resourceVersion : String
  annotations : List (String × String)
  labels : List (String × String)
  data : List (String × List Nat)
  secretType : String
deriving DecidableEq

/-- The repository's `SecretInfo`: namespace/name, expiration instant,
warning lead time, and signed day count. -/
structure SecretInfo where
  name : String
  ns : String
  expiresAt : Int
  warnBefore : Int
  daysUntilExp : Int
deriving DecidableEq

/-- Go zero value of `SecretInfo` as returned on the failure paths (the zero
`time.Time` is represented as instant 0; no claim inspects the failure
value). -/
def secretInfoZero : SecretInfo := ⟨"", "", 0, 0, 0⟩

/-- The `expires-at` annotation key (`AnnotationExpiresAt`). -/
def annExpiresAt : String := "secret-operator.example.com/expires-at"

/-- The `warn-before` annotation key (`AnnotationWarnBefore`). -/
def annWarnBefore : String := "secret-operator.example.com/warn-before"

/-- Go map lookup `secret.Annotations[k]`. -/
def lookupAnn (s : GoSecret) (k : String) : Option String :=
  s.annotations.lookup k

/-- The repository's `parseSecretInfo` (`secret_controller.go:293-321`),
with `now` passed explicitly in place of `time.Now()`. -/
def parseSecretInfo (s : GoSecret) (now : Int) : SecretInfo × Bool :=
  match lookupAnn s annExpiresAt with
  | none => (secretInfoZero, false)
  | some expStr =>
    match goParseDate expStr with
    | none => (secretInfoZero, false)
    | some expNs =>
      (⟨s.name, s.ns, expNs,
        (match lookupAnn s annWarnBefore with
         | none => 7 * 86400000000000
         | some wStr =>
           match parseDuration wStr with
           | some dur => dur
           | none => 7 * 86400000000000),
        truncDivNs (goSub expNs now) 86400000000000⟩, true)

/-- Whether a secret is tracked: the `expires-at` annotation is present and
parses as a date.  Equals the Bool returned by `parseSecretInfo`
(`parseSecretInfo_snd_eq`). -/
def hasExp (s : GoSecret) : Bool :=
  match lookupAnn s annExpiresAt with
  | none => false
  | some v => (goParseDate v).isSome

/-- A Kubernetes Event as emitted through `recorder.Eventf`: subject,
event type (`Normal`/`Warning`) and reason code. -/
structure EmittedEvent where
  subjNs : String
  subjName : String
  eventType : String
  reason : String
deriving DecidableEq

/-- The repository's `emitExpirationEvent` (`secret_controller.go:185-206`):
classify by day count against the whole-day warning threshold and emit the
corresponding Event. -/
def emitExpirationEvent (secret : GoSecret) (info : SecretInfo) : EmittedEvent :=
  if info.daysUntilExp < 0 then
    ⟨secret.ns, secret.name, "Warning", "SecretExpired"⟩
  else if info.daysUntilExp ≤ truncDivNs info.warnBefore 86400000000000 then
    ⟨secret.ns, secret.name, "Warning", "SecretExpiringSoon"⟩
  else
    ⟨secret.ns, secret.name, "Normal", "SecretValid"⟩

/-- Model of `cache.MetaNamespaceKeyFunc` on a Secret: `namespace/name`, or just
`name` when the namespace is empty.  Never fails for a Secret. -/
def metaNamespaceKey (s : GoSecret) : String :=
  if s.ns = "" then s.name else s.ns ++ "/" ++ s.name

/-- Model of `strings.Split` on the single character `/`. -/
def splitSlash : List Char → List (List Char)
  | [] => [[]]
  | '/' :: t => [] :: splitSlash t
  | c :: t =>
    match splitSlash t with
    | [] => [[c]]
    | h :: r => (c :: h) :: r

/-- Model of `cache.SplitMetaNamespaceKey`: at most one `/`; one part is a bare name,
two parts are namespace and name, more is an error. -/
def splitKey (key : String) : Option (String × String) :=
  match splitSlash key.data with
  | [n] => some ("", String.mk n)
  | [a, b] => some (String.mk a, String.mk b)
  | _ => none

/-- The repository's `handleAdd` (`secret_controller.go:209-227`): returns
the enqueued key, or `none` when nothing is enqueued. -/
def handleAdd (s : GoSecret) : Option String :=
  if hasExp s then some (metaNamespaceKey s) else none

/-- The repository's `handleUpdate` (`secret_controller.go:230-259`): skip
when the resource version is unchanged, otherwise enqueue the new object's
key when either the old or the new object is tracked. -/
def handleUpdate (oldS newS : GoSecret) : Option String :=
  if oldS.resourceVersion = newS.resourceVersion then none
  else if hasExp oldS || hasExp newS then some (metaNamespaceKey newS)
  else none

/-- The argument of `handleDelete`: the object itself, a
`DeletedFinalStateUnknown` tombstone wrapping it, a tombstone wrapping
something else, or an unexpected object. -/
inductive DeleteArg where
  | secretObj (s : GoSecret)
  | tombstoneSecret (s : GoSecret)
  | tombstoneOther
  | otherObj
deriving DecidableEq

/-- The repository's `handleDelete` (`secret_controller.go:262-288`):
returns the list of enqueued keys (always empty — it never touches the
workqueue) and whether the tracked-removal log line is written. -/
def handleDelete : DeleteArg → List String × Bool
  | .secretObj s => ([], hasExp s)
  | .tombstoneSecret s => ([], hasExp s)
  | .tombstoneOther => ([], false)
  | .otherObj => ([], false)

/-- Outcome of the informer-store fetch `GetByKey` inside `reconcile`: a
transient error, key absent, or the cached Secret (a Secrets informer store
holds only `*corev1.Secret`). -/
abbrev FetchResult := Except Unit (Option GoSecret)

/-- The repository's `reconcile` (`secret_controller.go:147-182`): split the
key (invalid format is logged and succeeds), fetch from the cache (error
propagates), absent or untracked objects succeed silently, tracked objects
are classified and an Event is emitted. -/
def reconcile (key : String) (fetch : FetchResult) (now : Int) :
    Except Unit Unit × List EmittedEvent :=
  match splitKey key with
  | none => (Except.ok (), [])
  | some _ =>
    match fetch with
    | Except.error _ => (Except.error (), [])
    | Except.ok none => (Except.ok (), [])
    | Except.ok (some secret) =>
      match parseSecretInfo secret now with
      | (_, false) => (Except.ok (), [])
      | (info, true) => (Except.ok (), [emitExpirationEvent secret info])

/-- A workqueue call made by the worker. -/
inductive QueueOp where
  | done (k : String)
  | forget (k : String)
  | addRateLimited (k : String)
deriving DecidableEq

/-- The repository's `processNextWorkItem` (`secret_controller.go:128-144`)
for one dequeued key: run `reconcile`; on error `AddRateLimited`, on success
`Forget`; the deferred `Done` always runs last. -/
def processNextWorkItem (key : String) (fetch : FetchResult) (now : Int) :
    List QueueOp × List EmittedEvent :=
  let r := reconcile key fetch now
  ((match r.1 with
    | Except.error _ => [QueueOp.addRateLimited key]
    | Except.ok _ => [QueueOp.forget key]) ++ [QueueOp.done key], r.2)

/-! Work-queue model.

Modelled from the spec: the deduplicating rate-limited work queue
(spec section 4.4) is a `client-go` framework primitive whose implementation
is not part of this repository's sources; only its construction
(`NewSecretController`, `secret_controller.go:49-51`) and call sites are.
State: FIFO list of pending keys, a dirty set, and an in-flight processing
set.  `add` is a no-op for a dirty key; a key added while processing is
marked dirty and re-queued by `done`. -/
structure WQ where
  pending : List String
  dirty : List String
  processing : List String
deriving DecidableEq

/-- Modelled from the spec: the empty queue. -/
def wqEmpty : WQ := ⟨[], [], []⟩

/-- Modelled from the spec: `add(key)` — no-op when the key is dirty;
otherwise mark dirty and, unless the key is in flight, append it to the
pending list. -/
def wqAdd (q : WQ) (k : String) : WQ :=
  if k ∈ q.dirty then q
  else
    ⟨if k ∈ q.processing then q.pending else q.pending ++ [k],
     k :: q.dirty, q.processing⟩

/-- Modelled from the spec: `get()` — pop the head of the pending list,
clear its dirty mark and mark it in flight. -/
def wqGet (q : WQ) : Option String × WQ :=
  match q.pending with
  | [] => (none, q)
  | k :: rest => (some k, ⟨rest, q.dirty.erase k, k :: q.processing⟩)

/-- Modelled from the spec: `done(key)` — remove the key from the in-flight
set and re-queue it when it was marked dirty while in flight. -/
def wqDone (q : WQ) (k : String) : WQ :=
  if k ∈ q.dirty then ⟨q.pending ++ [k], q.dirty, q.processing.erase k⟩
  else ⟨q.pending, q.dirty, q.processing.erase k⟩

/-- N-fold `add` of the same key. -/
def wqAddN (k : String) : Nat → WQ → WQ
  | 0, q => q
  | n + 1, q => wqAddN k n (wqAdd q k)

/-! Shared helper lemmas. -/

/-- The Bool returned by `parseSecretInfo` is exactly tracked-ness. -/
theorem parseSecretInfo_snd_eq (s : GoSecret) (now : Int) :
    (parseSecretInfo s now).2 = hasExp s := by
  unfold parseSecretInfo hasExp
  cases hl : lookupAnn s annExpiresAt with
  | none => rfl
  | some v => cases hd : goParseDate v <;> simp [hd]

/-- A tracked secret's `parseSecretInfo` result has second component true. -/
theorem parseSecretInfo_of_hasExp (s : GoSecret) (now : Int) (h : hasExp s = true) :
    parseSecretInfo s now = ((parseSecretInfo s now).1, true) := by
  have := parseSecretInfo_snd_eq s now
  rw [h] at this
  exact Prod.ext rfl this

/-- Reconciling a cached but untracked secret succeeds and emits nothing. -/
theorem reconcile_untracked (key : String) (s : GoSecret) (now : Int)
    (h : hasExp s = false) :
    reconcile key (Except.ok (some s)) now = (Except.ok (), []) := by
  rcases hp : parseSecretInfo s now with ⟨info, b⟩
  have hb := parseSecretInfo_snd_eq s now
  rw [hp, h] at hb
  simp at hb
  subst hb
  cases hk : splitKey key with
  | none => simp [reconcile, hk]
  | some p => simp [reconcile, hk, hp]

/-! C1 -/

/-- C1: for every secret with computed signed day count `d` and whole-day
warning threshold `w`, the emitted classification is `SecretExpired` iff
`d < 0`, `SecretExpiringSoon` iff `0 ≤ d ≤ w`, `SecretValid` otherwise, and
the three outcomes are exhaustive and mutually exclusive. -/
theorem c1_status_partition (s : GoSecret) (info : SecretInfo) :
    ((emitExpirationEvent s info).reason = "SecretExpired" ↔
      info.daysUntilExp < 0) ∧
    ((emitExpirationEvent s info).reason = "SecretExpiringSoon" ↔
      (0 ≤ info.daysUntilExp ∧
       info.daysUntilExp ≤ truncDivNs info.warnBefore 86400000000000)) ∧
    ((emitExpirationEvent s info).reason = "SecretValid" ↔
      (¬ info.daysUntilExp < 0 ∧
       ¬ (0 ≤ info.daysUntilExp ∧
          info.daysUntilExp ≤ truncDivNs info.warnBefore 86400000000000))) ∧
    ((emitExpirationEvent s info).reason = "SecretExpired" ∨
     (emitExpirationEvent s info).reason = "SecretExpiringSoon" ∨
     (emitExpirationEvent s info).reason = "SecretValid") := by
  unfold emitExpirationEvent
  split
  case isTrue h1 =>
    exact ⟨by simp [h1], by simp; omega, by simp; omega, by simp⟩
  case isFalse h1 =>
    split
    case isTrue h2 =>
      exact ⟨by simp; omega, by simp; omega, by simp; omega, by simp⟩
    case isFalse h2 =>
      exact ⟨by simp; omega, by simp; omega, by simp; omega, by simp⟩

/-! C4 -/

/-- C4: an update whose old and new resource versions are equal enqueues
nothing, regardless of either object's annotations. -/
theorem c4_resync_skip (oldS newS : GoSecret)
    (h : oldS.resourceVersion = newS.resourceVersion) :
    handleUpdate oldS newS = none := by
  unfold handleUpdate
  rw [if_pos h]

/-- C4 witness. -/
theorem c4_resync_skip_witness :
    handleUpdate ⟨"db", "default", "7", [(annExpiresAt, "2024-12-31")], [], [], "Opaque"⟩
        ⟨"db", "default", "7", [], [], [], "Opaque"⟩ = none :=
  c4_resync_skip
    ⟨"db", "default", "7", [(annExpiresAt, "2024-12-31")], [], [], "Opaque"⟩
    ⟨"db", "default", "7", [], [], [], "Opaque"⟩ (by decide)

/-! C5 -/

/-- C5: when old and new resource versions differ, the update handler
enqueues the new object's key iff at least one of the two objects is tracked
(carries a parsable expiration date), and enqueues nothing otherwise. -/
theorem c5_update_enqueue_iff (oldS newS : GoSecret)
    (h : oldS.resourceVersion ≠ newS.resourceVersion) :
    (handleUpdate oldS newS = some (metaNamespaceKey newS) ↔
      (hasExp oldS = true ∨ hasExp newS = true)) ∧
    (¬ (hasExp oldS = true ∨ hasExp newS = true) →
      handleUpdate oldS newS = none) := by
  unfold handleUpdate
  rw [if_neg h]
  constructor
  · cases ho : hasExp oldS <;> cases hn : hasExp newS <;> simp
  · intro hno
    cases ho : hasExp oldS <;> cases hn : hasExp newS <;> simp_all

/-- C5 witness. -/
theorem c5_update_enqueue_iff_witness :
    (handleUpdate ⟨"db", "default", "7", [], [], [], "Opaque"⟩
        ⟨"db", "default", "8", [(annExpiresAt, "2024-12-31")], [], [], "Opaque"⟩ =
      some (metaNamespaceKey
        ⟨"db", "default", "8", [(annExpiresAt, "2024-12-31")], [], [], "Opaque"⟩) ↔
      (hasExp ⟨"db", "default", "7", [], [], [], "Opaque"⟩ = true ∨
       hasExp ⟨"db", "default", "8", [(annExpiresAt, "2024-12-31")], [], [], "Opaque"⟩ = true)) ∧
    (¬ (hasExp ⟨"db", "default", "7", [], [], [], "Opaque"⟩ = true ∨
        hasExp ⟨"db", "default", "8", [(annExpiresAt, "2024-12-31")], [], [], "Opaque"⟩ = true) →
      handleUpdate ⟨"db", "default", "7", [], [], [], "Opaque"⟩
        ⟨"db", "default", "8", [(annExpiresAt, "2024-12-31")], [], [], "Opaque"⟩ = none) :=
  c5_update_enqueue_iff
    ⟨"db", "default", "7", [], [], [], "Opaque"⟩
    ⟨"db", "default", "8", [(annExpiresAt, "2024-12-31")], [], [], "Opaque"⟩ (by decide)

/-! C9 -/

/-- C9: the delete handler never enqueues anything, for a plain object as
well as for a tombstone, and logs the removal exactly when the event carries
a tracked secret. -/
theorem c9_delete_no_enqueue (arg : DeleteArg) :
    (handleDelete arg).1 = [] ∧
    ((handleDelete arg).2 = true ↔
      ∃ s, (arg = DeleteArg.secretObj s ∨ arg = DeleteArg.tombstoneSecret s) ∧
        hasExp s = true) := by
  cases arg with
  | secretObj s =>
    refine ⟨rfl, ?_⟩
    constructor
    · intro h; exact ⟨s, Or.inl rfl, h⟩
    · rintro ⟨s2, h1 | h1, h2⟩
      · cases h1; exact h2
      · cases h1
  | tombstoneSecret s =>
    refine ⟨rfl, ?_⟩
    constructor
    · intro h; exact ⟨s, Or.inr rfl, h⟩
    · rintro ⟨s2, h1 | h1, h2⟩
      · cases h1
      · cases h1; exact h2
  | tombstoneOther =>
    refine ⟨rfl, ?_⟩
    constructor
    · intro h; cases h
    · rintro ⟨s2, h1 | h1, h2⟩ <;> cases h1
  | otherObj =>
    refine ⟨rfl, ?_⟩
    constructor
    · intro h; cases h
    · rintro ⟨s2, h1 | h1, h2⟩ <;> cases h1

/-! C10 -/

/-- C10: the expiration classification depends only on a secret's name,
namespace and annotations; data, labels, type and version have no
influence. -/
theorem c10_field_independence (s1 s2 : GoSecret) (now : Int)
    (hn : s1.name = s2.name) (hns : s1.ns = s2.ns)
    (ha : s1.annotations = s2.annotations) :
    parseSecretInfo s1 now = parseSecretInfo s2 now := by
  cases s1
  cases s2
  simp only at hn hns ha
  subst hn; subst hns; subst ha
  rfl

/-- C10 witness: two secrets sharing identity and annotations but differing
in payload, labels, type and version classify identically. -/
theorem c10_field_independence_witness :
    parseSecretInfo
      ⟨"db", "default", "7", [(annExpiresAt, "2024-12-31")],
        [("app", "a")], [("password", [1, 2])], "Opaque"⟩ (dateToNs 2024 12 20) =
    parseSecretInfo
      ⟨"db", "default", "8", [(annExpiresAt, "2024-12-31")],
        [("app", "b")], [("password", [3])], "kubernetes.io/tls"⟩ (dateToNs 2024 12 20) :=
  c10_field_independence
    ⟨"db", "default", "7", [(annExpiresAt, "2024-12-31")],
      [("app", "a")], [("password", [1, 2])], "Opaque"⟩
    ⟨"db", "default", "8", [(annExpiresAt, "2024-12-31")],
      [("app", "b")], [("password", [3])], "kubernetes.io/tls"⟩
    (dateToNs 2024 12 20) rfl rfl rfl

/-! C6 -/

/-- C6: one worker pass on a dequeued (well-formed) key calls `Done` exactly
once, and ends in exactly one of: fetch error → `AddRateLimited`; key absent
→ success and `Forget`; present but untracked → success and `Forget` with no
emission; present and tracked → success, `Forget`, and one classification
emission. -/
theorem c6_worker_outcomes (key : String) (now : Int) (fetch : FetchResult)
    (p : String × String) (hk : splitKey key = some p) :
    ((processNextWorkItem key fetch now).1.count (QueueOp.done key) = 1) ∧
    (fetch = Except.error () →
      (processNextWorkItem key fetch now).1 =
        [QueueOp.addRateLimited key, QueueOp.done key]) ∧
    (fetch = Except.ok none →
      (processNextWorkItem key fetch now).1 = [QueueOp.forget key, QueueOp.done key] ∧
      (processNextWorkItem key fetch now).2 = []) ∧
    (∀ s, fetch = Except.ok (some s) → hasExp s = false →
      (processNextWorkItem key fetch now).1 = [QueueOp.forget key, QueueOp.done key] ∧
      (processNextWorkItem key fetch now).2 = []) ∧
    (∀ s, fetch = Except.ok (some s) → hasExp s = true →
      (processNextWorkItem key fetch now).1 = [QueueOp.forget key, QueueOp.done key] ∧
      (processNextWorkItem key fetch now).2 =
        [emitExpirationEvent s (parseSecretInfo s now).1]) := by
  refine ⟨?_, ?_, ?_, ?_, ?_⟩
  · rcases fetch with e | mb
    · simp [processNextWorkItem, reconcile, hk, List.count_cons]
    · rcases mb with _ | s
      · simp [processNextWorkItem, reconcile, hk, List.count_cons]
      · rcases hp : parseSecretInfo s now with ⟨info, b⟩
        cases b <;>
          simp [processNextWorkItem, reconcile, hk, hp, List.count_cons]
  · rintro rfl
    simp [processNextWorkItem, reconcile, hk]
  · rintro rfl
    simp [processNextWorkItem, reconcile, hk]
  · rintro s rfl hu
    rcases hp : parseSecretInfo s now with ⟨info, b⟩
    have hb := parseSecretInfo_snd_eq s now
    rw [hp, hu] at hb
    simp at hb
    subst hb
    simp [processNextWorkItem, reconcile, hk, hp]
  · rintro s rfl ht
    rcases hp : parseSecretInfo s now with ⟨info, b⟩
    have hb := parseSecretInfo_snd_eq s now
    rw [hp, ht] at hb
    simp at hb
    subst hb
    simp [processNextWorkItem, reconcile, hk, hp]

/-- C6 witness: pass on key `default/db` with the secret present and
tracked. -/
theorem c6_worker_outcomes_witness :
    (processNextWorkItem "default/db"
       (Except.ok (some ⟨"db", "default", "7", [(annExpiresAt, "2024-12-31")], [], [], "Opaque"⟩))
       (dateToNs 2024 12 20)).1.count (QueueOp.done "default/db") = 1 ∧
    (processNextWorkItem "default/db"
       (Except.ok (some ⟨"db", "default", "7", [(annExpiresAt, "2024-12-31")], [], [], "Opaque"⟩))
       (dateToNs 2024 12 20)).1 =
      [QueueOp.forget "default/db", QueueOp.done "default/db"] := by
  have h := c6_worker_outcomes "default/db" (dateToNs 2024 12 20)
    (Except.ok (some ⟨"db", "default", "7", [(annExpiresAt, "2024-12-31")], [], [], "Opaque"⟩))
    ("default", "db") (by decide)
  exact ⟨h.1, (h.2.2.2.2 ⟨"db", "default", "7", [(annExpiresAt, "2024-12-31")], [], [], "Opaque"⟩
    rfl (by decide)).1⟩

/-! C8 -/

/-- C8: a secret whose expiration value does not parse as a
`YYYY-MM-DD` date is reported untracked by the classifier, the add handler
enqueues nothing for it, and the reconciler succeeds on it (no retry). -/
theorem c8_bad_date_untracked (s : GoSecret) (v : String) (now : Int)
    (h1 : lookupAnn s annExpiresAt = some v) (h2 : goParseDate v = none) :
    (parseSecretInfo s now).2 = false ∧
    hasExp s = false ∧
    handleAdd s = none ∧
    reconcile (metaNamespaceKey s) (Except.ok (some s)) now = (Except.ok (), []) := by
  have hx : hasExp s = false := by
    simp [hasExp, h1, h2]
  refine ⟨?_, hx, ?_, ?_⟩
  · rw [parseSecretInfo_snd_eq, hx]
  · unfold handleAdd
    rw [hx]
    rfl
  · exact reconcile_untracked _ s now hx

/-- C8 witness: the `not-a-date` scenario. -/
theorem c8_bad_date_untracked_witness :
    (parseSecretInfo ⟨"db", "default", "7", [(annExpiresAt, "not-a-date")], [], [], "Opaque"⟩
        (dateToNs 2024 12 20)).2 = false ∧
    hasExp ⟨"db", "default", "7", [(annExpiresAt, "not-a-date")], [], [], "Opaque"⟩ = false ∧
    handleAdd ⟨"db", "default", "7", [(annExpiresAt, "not-a-date")], [], [], "Opaque"⟩ = none ∧
    reconcile
      (metaNamespaceKey ⟨"db", "default", "7", [(annExpiresAt, "not-a-date")], [], [], "Opaque"⟩)
      (Except.ok (some ⟨"db", "default", "7", [(annExpiresAt, "not-a-date")], [], [], "Opaque"⟩))
      (dateToNs 2024 12 20) = (Except.ok (), []) :=
  c8_bad_date_untracked
    ⟨"db", "default", "7", [(annExpiresAt, "not-a-date")], [], [], "Opaque"⟩
    "not-a-date" (dateToNs 2024 12 20) (by decide) (by decide)

/-! C2 -/

/-- Truncating division by one day is negative exactly when the dividend is
at most minus one day. -/
theorem truncDivNs_day_neg_iff (z : Int) :
    truncDivNs z 86400000000000 < 0 ↔ z ≤ -86400000000000 := by
  unfold truncDivNs
  split
  case isTrue h =>
    have h1 : (0 : Int) ≤ ((z.toNat / 86400000000000 : Nat) : Int) := Int.natCast_nonneg _
    omega
  case isFalse h =>
    by_cases hk : (86400000000000 : Nat) ≤ (-z).toNat
    · have hp : 0 < (-z).toNat / 86400000000000 := Nat.div_pos hk (by norm_num)
      have hp2 : (0 : Int) < (((-z).toNat / 86400000000000 : Nat) : Int) := by
        exact_mod_cast hp
      omega
    · have hz : (-z).toNat / 86400000000000 = 0 := Nat.div_eq_of_lt (by omega)
      rw [hz]
      simp only [Nat.cast_zero, neg_zero]
      omega

/-- Saturated subtraction compares against minus one day the same way the
plain difference does. -/
theorem goSub_le_neg_day_iff (a b : Int) :
    goSub a b ≤ -86400000000000 ↔ a - b ≤ -86400000000000 := by
  unfold goSub
  split
  · omega
  · split <;> omega

/-- C2 (amended): the computed day count is the truncation toward zero — not
the floor — of the (64-bit saturated) difference divided by 24 hours, and it
is negative exactly when `now` is at least a full day past the expiration
instant. -/
theorem c2_daycount_trunc (s : GoSecret) (now : Int) (info : SecretInfo)
    (h : parseSecretInfo s now = (info, true)) :
    info.daysUntilExp = truncDivNs (goSub info.expiresAt now) 86400000000000 ∧
    (info.daysUntilExp < 0 ↔ info.expiresAt - now ≤ -86400000000000) := by
  cases hl : lookupAnn s annExpiresAt with
  | none =>
    simp only [parseSecretInfo, hl] at h
    simp at h
  | some v =>
    cases hd : goParseDate v with
    | none =>
      simp only [parseSecretInfo, hl, hd] at h
      simp at h
    | some expNs =>
      simp only [parseSecretInfo, hl, hd] at h
      injection h with hi hb
      subst hi
      exact ⟨rfl, by rw [truncDivNs_day_neg_iff, goSub_le_neg_day_iff]⟩

/-- C2 witness: expiration 2024-12-31 evaluated at 2024-12-20 midnight. -/
theorem c2_daycount_trunc_witness :
    ((⟨"db", "default", dateToNs 2024 12 31, 604800000000000, 11⟩ : SecretInfo).daysUntilExp =
      truncDivNs (goSub (⟨"db", "default", dateToNs 2024 12 31, 604800000000000, 11⟩ :
          SecretInfo).expiresAt (dateToNs 2024 12 20)) 86400000000000) ∧
    ((⟨"db", "default", dateToNs 2024 12 31, 604800000000000, 11⟩ : SecretInfo).daysUntilExp < 0 ↔
      (⟨"db", "default", dateToNs 2024 12 31, 604800000000000, 11⟩ : SecretInfo).expiresAt -
          dateToNs 2024 12 20 ≤ -86400000000000) :=
  c2_daycount_trunc
    ⟨"db", "default", "7", [(annExpiresAt, "2024-12-31")], [], [], "Opaque"⟩
    (dateToNs 2024 12 20)
    ⟨"db", "default", dateToNs 2024 12 31, 604800000000000, 11⟩
    (by decide)

/-- C2 counterexample: with expiration 2024-12-31 and `now` 36 hours past
it, the code computes day count −1 (truncation toward zero) while
`floor(−36h / 24h) = −2`; so the day count is not the floor, and `now` can
be after the expiration instant with a non-negative day count (12 hours
past gives 0). -/
theorem c2_floor_counterexample :
    (parseSecretInfo ⟨"db", "default", "7", [(annExpiresAt, "2024-12-31")], [], [], "Opaque"⟩
        (dateToNs 2024 12 31 + 129600000000000)).2 = true ∧
    (parseSecretInfo ⟨"db", "default", "7", [(annExpiresAt, "2024-12-31")], [], [], "Opaque"⟩
        (dateToNs 2024 12 31 + 129600000000000)).1.daysUntilExp = -1 ∧
    Int.fdiv
      ((parseSecretInfo ⟨"db", "default", "7", [(annExpiresAt, "2024-12-31")], [], [], "Opaque"⟩
          (dateToNs 2024 12 31 + 129600000000000)).1.expiresAt -
        (dateToNs 2024 12 31 + 129600000000000)) 86400000000000 = -2 ∧
    ¬ ((parseSecretInfo ⟨"db", "default", "7", [(annExpiresAt, "2024-12-31")], [], [], "Opaque"⟩
          (dateToNs 2024 12 31 + 129600000000000)).1.daysUntilExp =
        Int.fdiv
          ((parseSecretInfo ⟨"db", "default", "7",
              [(annExpiresAt, "2024-12-31")], [], [], "Opaque"⟩
              (dateToNs 2024 12 31 + 129600000000000)).1.expiresAt -
            (dateToNs 2024 12 31 + 129600000000000)) 86400000000000) ∧
    (parseSecretInfo ⟨"db", "default", "7", [(annExpiresAt, "2024-12-31")], [], [], "Opaque"⟩
        (dateToNs 2024 12 31 + 43200000000000)).1.daysUntilExp = 0 := by
  decide

/-! C3 -/

/-- Adding a key that is already dirty (in particular, any pending key in an
invariant-respecting state) leaves the queue unchanged. -/
theorem wqAdd_fix (q : WQ) (k : String) (h : k ∈ q.dirty) : wqAdd q k = q := by
  unfold wqAdd
  rw [if_pos h]

/-- From the one-key queue, further adds of that key are no-ops. -/
theorem wqAddN_fix (k : String) : ∀ n, wqAddN k n ⟨[k], [k], []⟩ = ⟨[k], [k], []⟩ := by
  intro n
  induction n with
  | zero => rfl
  | succ m ih =>
    show wqAddN k m (wqAdd ⟨[k], [k], []⟩ k) = _
    rw [wqAdd_fix ⟨[k], [k], []⟩ k (by simp), ih]

/-- C3 (spec-modelled work queue): adding a pending (hence dirty) key is a
no-op; any positive number of adds before the first `get` collapses to a
single pending copy, dequeued exactly once; and an `add` — or several — while
the key is in flight yields exactly one re-delivery at `done` time, while
`done` without a prior `add` re-delivers nothing. -/
theorem c3_workqueue_dedup (q : WQ) (k : String) (n : Nat) :
    ((∀ x, x ∈ q.pending → x ∈ q.dirty) → k ∈ q.pending → wqAdd q k = q) ∧
    (0 < n →
      wqAddN k n wqEmpty = ⟨[k], [k], []⟩ ∧
      (wqGet (wqAddN k n wqEmpty)).1 = some k ∧
      (wqGet (wqAddN k n wqEmpty)).2.pending = []) ∧
    (k ∈ q.processing → k ∉ q.dirty → k ∉ q.pending →
      ((wqDone (wqAdd q k) k).pending.count k = 1 ∧
       (wqDone (wqAdd (wqAdd q k) k) k).pending.count k = 1 ∧
       (wqDone q k).pending.count k = 0)) := by
  refine ⟨?_, ?_, ?_⟩
  · intro hsub hmem
    exact wqAdd_fix q k (hsub k hmem)
  · intro hn
    obtain ⟨m, rfl⟩ : ∃ m, n = m + 1 := ⟨n - 1, by omega⟩
    have h1 : wqAddN k (m + 1) wqEmpty = ⟨[k], [k], []⟩ := by
      show wqAddN k m (wqAdd wqEmpty k) = _
      have : wqAdd wqEmpty k = ⟨[k], [k], []⟩ := by
        unfold wqAdd wqEmpty
        simp
      rw [this, wqAddN_fix]
    refine ⟨h1, ?_, ?_⟩ <;> rw [h1] <;> rfl
  · intro hp hd hq
    have hadd : wqAdd q k = ⟨q.pending, k :: q.dirty, q.processing⟩ := by
      unfold wqAdd
      rw [if_neg hd, if_pos hp]
    have hadd2 : wqAdd (wqAdd q k) k = wqAdd q k := by
      apply wqAdd_fix
      rw [hadd]
      simp
    have hdone : wqDone (wqAdd q k) k =
        ⟨q.pending ++ [k], k :: q.dirty, q.processing.erase k⟩ := by
      rw [hadd]
      unfold wqDone
      simp
    have hcount0 : q.pending.count k = 0 := List.count_eq_zero.mpr hq
    refine ⟨?_, ?_, ?_⟩
    · rw [hdone]
      simp [List.count_append, hcount0]
    · rw [hadd2, hdone]
      simp [List.count_append, hcount0]
    · unfold wqDone
      rw [if_neg hd]
      exact hcount0

/-- C3 witness: a state with `a` pending and dirty and `b` in flight. -/
theorem c3_workqueue_dedup_witness :
    wqAdd ⟨["a"], ["a"], ["b"]⟩ "a" = ⟨["a"], ["a"], ["b"]⟩ ∧
    (wqAddN "b" 3 wqEmpty = ⟨["b"], ["b"], []⟩ ∧
      (wqGet (wqAddN "b" 3 wqEmpty)).1 = some "b" ∧
      (wqGet (wqAddN "b" 3 wqEmpty)).2.pending = []) ∧
    ((wqDone (wqAdd ⟨["a"], ["a"], ["b"]⟩ "b") "b").pending.count "b" = 1 ∧
     (wqDone (wqAdd (wqAdd ⟨["a"], ["a"], ["b"]⟩ "b") "b") "b").pending.count "b" = 1 ∧
     (wqDone ⟨["a"], ["a"], ["b"]⟩ "b").pending.count "b" = 0) :=
  ⟨(c3_workqueue_dedup ⟨["a"], ["a"], ["b"]⟩ "a" 3).1 (fun x hx => hx) (by decide),
   (c3_workqueue_dedup ⟨["a"], ["a"], ["b"]⟩ "b" 3).2.1 (by decide),
   (c3_workqueue_dedup ⟨["a"], ["a"], ["b"]⟩ "b" 3).2.2 (by decide) (by decide) (by decide)⟩

/-! C7: structure lemmas about the duration grammar. -/

/-- The last element of an append is the last element of a non-empty second
part. -/
theorem getLast?_append_right (l1 l2 : List Char) (h : l2 ≠ []) :
    (l1 ++ l2).getLast? = l2.getLast? := by
  rw [List.getLast?_append]
  cases hx : l2.getLast? with
  | none => exact absurd (List.getLast?_eq_none_iff.mp hx) h
  | some a => rfl

/-- Every unit key of `unitMap` ends in `'s'`, `'m'` or `'h'`. -/
theorem unitMap_getLast {u : List Char} {x : Nat} (h : unitMap u = some x) :
    u.getLast? = some 's' ∨ u.getLast? = some 'm' ∨ u.getLast? = some 'h' := by
  unfold unitMap at h
  split at h
  all_goals first
    | exact Option.noConfusion h
    | decide

/-- Inversion of a successful `parseNumUnit`: the rest is the input with its
unit chopped off, and that unit is non-empty and known to `unitMap`. -/
theorem parseNumUnit_some {v f sc : Nat} {b : Bool} {s2 : List Char}
    {w : Nat} {rest : List Char}
    (h : parseNumUnit v f sc b s2 = some (w, rest)) :
    rest = s2.dropWhile nonNumChar ∧ s2.takeWhile nonNumChar ≠ [] ∧
      ∃ x, unitMap (s2.takeWhile nonNumChar) = some x := by
  unfold parseNumUnit at h
  repeat' split at h
  all_goals try exact Option.noConfusion h
  all_goals
    simp only [Option.some.injEq, Prod.mk.injEq] at h
    exact ⟨h.2.symm, by assumption, _, by assumption⟩

/-- Inversion of a successful `goLeadingInt`: the rest is the input without
its leading digits. -/
theorem goLeadingInt_some {s : List Char} {v : Nat} {s1 : List Char}
    (h : goLeadingInt s = some (v, s1)) : s1 = s.dropWhile Char.isDigit := by
  unfold goLeadingInt at h
  cases ha : accDigits (s.takeWhile Char.isDigit) 0 <;> rw [ha] at h
  · exact absurd h (by simp)
  · simp only [Option.map_some', Option.some.injEq, Prod.mk.injEq] at h
    exact h.2.symm

/-- Inversion of a successful `parseOne`: the input splits into a consumed
part and a tail whose maximal non-numeric run is a known non-empty unit,
with the rest of the tail returned. -/
theorem parseOne_some : ∀ {s : List Char} {v : Nat} {rest : List Char},
    parseOne s = some (v, rest) →
    ∃ p s2, s = p ++ s2 ∧ rest = s2.dropWhile nonNumChar ∧
      s2.takeWhile nonNumChar ≠ [] ∧
      ∃ x, unitMap (s2.takeWhile nonNumChar) = some x := by
  intro s v rest h
  cases s with
  | nil => exact absurd h (by simp [parseOne])
  | cons c tl =>
    simp only [parseOne] at h
    split at h
    · exact Option.noConfusion h
    · split at h
      · exact Option.noConfusion h
      · rename_i v1 s1 hgi
        have e1 : (c :: tl) = (c :: tl).takeWhile Char.isDigit ++ s1 := by
          rw [goLeadingInt_some hgi]
          exact (List.takeWhile_append_dropWhile _ _).symm
        split at h
        · rename_i t
          obtain ⟨hrest, hne, x, hx⟩ := parseNumUnit_some h
          have hfr : (goLeadingFraction t).2.2 = t.dropWhile Char.isDigit := rfl
          have e2 : t = t.takeWhile Char.isDigit ++ (goLeadingFraction t).2.2 := by
            rw [hfr]
            exact (List.takeWhile_append_dropWhile _ _).symm
          refine ⟨(c :: tl).takeWhile Char.isDigit ++ '.' :: t.takeWhile Char.isDigit,
            (goLeadingFraction t).2.2, ?_, hrest, hne, x, hx⟩
          have ha : ((c :: tl).takeWhile Char.isDigit ++ '.' :: t.takeWhile Char.isDigit) ++
              (goLeadingFraction t).2.2 =
              (c :: tl).takeWhile Char.isDigit ++
                '.' :: (t.takeWhile Char.isDigit ++ (goLeadingFraction t).2.2) := by
            simp [List.append_assoc]
          rw [ha, ← e2, ← e1]
        · obtain ⟨hrest, hne, x, hx⟩ := parseNumUnit_some h
          exact ⟨(c :: tl).takeWhile Char.isDigit, s1, e1, hrest, hne, x, hx⟩

/-- A successful `parseOne` consumes at least one character. -/
theorem parseOne_rest_lt {s : List Char} {v : Nat} {rest : List Char}
    (h : parseOne s = some (v, rest)) : rest.length < s.length := by
  obtain ⟨p, s2, hps, hrest, hne, x, hx⟩ := parseOne_some h
  have hsp := List.takeWhile_append_dropWhile nonNumChar s2
  have h1 : s.length = p.length + s2.length := by rw [hps]; simp
  have h2 := congrArg List.length hsp
  rw [List.length_append] at h2
  have h3 : 0 < (s2.takeWhile nonNumChar).length := List.length_pos.mpr hne
  rw [hrest]
  omega

/-- When `parseOne` consumes the whole input, the input ends in a unit
character. -/
theorem parseOne_getLast_nil {s : List Char} {v : Nat}
    (h : parseOne s = some (v, [])) :
    s.getLast? = some 's' ∨ s.getLast? = some 'm' ∨ s.getLast? = some 'h' := by
  obtain ⟨p, s2, hps, hrest, hne, x, hx⟩ := parseOne_some h
  have hsp := List.takeWhile_append_dropWhile nonNumChar s2
  rw [← hrest, List.append_nil] at hsp
  have hs2ne : s2 ≠ [] := by rw [← hsp]; exact hne
  rw [hps, getLast?_append_right p s2 hs2ne, ← hsp]
  exact unitMap_getLast hx

/-- When `parseOne` leaves a non-empty rest, the input's last character is
the rest's last character. -/
theorem parseOne_getLast_rest {s : List Char} {v : Nat} {rest : List Char}
    (h : parseOne s = some (v, rest)) (hne : rest ≠ []) :
    s.getLast? = rest.getLast? := by
  obtain ⟨p, s2, hps, hrest, hne2, x, hx⟩ := parseOne_some h
  have hsp := List.takeWhile_append_dropWhile nonNumChar s2
  rw [← hrest] at hsp
  have hs2 : s2 ≠ [] := by
    rw [← hsp]
    intro hc
    exact hne (List.append_eq_nil.mp hc).2
  rw [hps, getLast?_append_right p s2 hs2, ← hsp,
    getLast?_append_right _ rest hne]

/-- A string accepted by the `ParseDuration` item loop ends in a unit
character. -/
theorem parseLoopF_getLast : ∀ (fuel : Nat) (s : List Char) (d r : Nat),
    parseLoopF fuel s d = some r →
    s.getLast? = some 's' ∨ s.getLast? = some 'm' ∨ s.getLast? = some 'h' := by
  intro fuel
  induction fuel with
  | zero => intro s d r h; exact Option.noConfusion h
  | succ n ih =>
    intro s d r h
    unfold parseLoopF at h
    split at h
    · exact Option.noConfusion h
    · rename_i v rest hp
      split at h
      · exact Option.noConfusion h
      · split at h
        · rename_i hr
          have hrn : rest = [] := List.isEmpty_iff.mp hr
          rw [hrn] at hp
          exact parseOne_getLast_nil hp
        · rename_i hr
          have hrne : rest ≠ [] := by
            intro hc
            exact hr (List.isEmpty_iff.mpr hc)
          rw [parseOne_getLast_rest hp hrne]
          exact ih rest (d + v) r h

/-- The fuel given to the item loop is irrelevant once it covers the input
length, so `parseLoopF s.length s 0` is the unbounded Go loop. -/
theorem parseLoopF_fuel_adequate : ∀ (f1 f2 : Nat) (s : List Char) (d : Nat),
    s.length ≤ f1 → s.length ≤ f2 → parseLoopF f1 s d = parseLoopF f2 s d := by
  intro f1
  induction f1 with
  | zero =>
    intro f2 s d h1 h2
    have hs : s = [] := by
      cases s with
      | nil => rfl
      | cons c t => simp at h1
    subst hs
    cases f2 with
    | zero => rfl
    | succ m =>
      show none = parseLoopF (m + 1) [] d
      unfold parseLoopF
      rfl
  | succ n ih =>
    intro f2 s d h1 h2
    cases f2 with
    | zero =>
      have hs : s = [] := by
        cases s with
        | nil => rfl
        | cons c t => simp at h2
      subst hs
      show parseLoopF (n + 1) [] d = none
      unfold parseLoopF
      rfl
    | succ m =>
      show parseLoopF (n + 1) s d = parseLoopF (m + 1) s d
      unfold parseLoopF
      cases hp : parseOne s with
      | none => rfl
      | some pr =>
        rcases pr with ⟨v, rest⟩
        have hlt : rest.length < s.length := parseOne_rest_lt hp
        by_cases hov : d + v > 9223372036854775808
        · simp [hov]
        · by_cases hre : rest.isEmpty
          · simp [hov, hre]
          · simp only [hov, hre, if_neg, if_false]
            exact ih m rest (d + v) (by omega) (by omega)

/-- A string accepted by Go `ParseDuration` ends in `'0'`, `'s'`, `'m'` or
`'h'`; in particular nothing ending in `'d'` is accepted. -/
theorem goParseDurationTail_getLast (neg : Bool) (s : List Char) (r : Int)
    (h : goParseDurationTail neg s = some r) :
    s.getLast? = some '0' ∨ s.getLast? = some 's' ∨ s.getLast? = some 'm' ∨
      s.getLast? = some 'h' := by
  unfold goParseDurationTail at h
  split at h
  · rename_i h0
    rw [h0]
    exact Or.inl rfl
  · split at h
    · exact Option.noConfusion h
    · split at h
      · exact Option.noConfusion h
      · rename_i d hd
        exact Or.inr (parseLoopF_getLast s.length s 0 d hd)

/-- Lifting `goParseDurationTail_getLast` over the optional sign. -/
theorem goParseDuration_getLast (str : String) (r : Int)
    (h : goParseDuration str = some r) :
    str.data.getLast? = some '0' ∨ str.data.getLast? = some 's' ∨
      str.data.getLast? = some 'm' ∨ str.data.getLast? = some 'h' := by
  unfold goParseDuration at h
  split at h
  · rename_i t hdat
    have hl := goParseDurationTail_getLast true t r h
    have htne : t ≠ [] := by
      rcases hl with h1 | h1 | h1 | h1 <;>
        (intro hc; rw [hc] at h1; exact Option.noConfusion h1)
    rw [hdat, show ('-' :: t) = ['-'] ++ t from rfl, getLast?_append_right _ t htne]
    exact hl
  · rename_i t hdat
    have hl := goParseDurationTail_getLast false t r h
    have htne : t ≠ [] := by
      rcases hl with h1 | h1 | h1 | h1 <;>
        (intro hc; rw [hc] at h1; exact Option.noConfusion h1)
    rw [hdat, show ('+' :: t) = ['+'] ++ t from rfl, getLast?_append_right _ t htne]
    exact hl
  · exact goParseDurationTail_getLast false str.data r h

/-- Nothing ending in `'d'` is a valid Go duration. -/
theorem goParseDuration_d_none (str : String)
    (h : str.data.getLast? = some 'd') : goParseDuration str = none := by
  cases hg : goParseDuration str with
  | none => rfl
  | some r =>
    have hx := goParseDuration_getLast str r hg
    rw [h] at hx
    rcases hx with h1 | h1 | h1 | h1 <;> exact absurd h1 (by decide)

/-- Spec-side definition for the refinement comparison of C7: the claim's
first parse alternative, a string of the form `"<integer>d"` read as an
integer day count (Go integer syntax and range). -/
def specIntDays (w : String) : Option Int :=
  if w.data.getLast? = some 'd' then goAtoi w.data.dropLast else none

/-- C7 (amended): the lead time is parsed either as `"<integer>d"` — that
many 24-hour days computed in wrapping signed 64-bit arithmetic — or by the
standard Go duration grammar; the parse fails if and only if both
alternatives fail, and exactly then the tracked secret keeps the default
7-day lead time, still without error. -/
theorem c7_duration_fallback (w : String) :
    (parseDuration w = none ↔ (specIntDays w = none ∧ goParseDuration w = none)) ∧
    (∀ days, specIntDays w = some days →
      parseDuration w = some (wrap64 (days * 86400000000000))) ∧
    (∀ (s : GoSecret) (now : Int) (e : String) (t : Int),
      lookupAnn s annExpiresAt = some e → goParseDate e = some t →
      lookupAnn s annWarnBefore = some w →
      parseSecretInfo s now =
        (⟨s.name, s.ns, t, (parseDuration w).getD (7 * 86400000000000),
          truncDivNs (goSub t now) 86400000000000⟩, true)) := by
  refine ⟨?_, ?_, ?_⟩
  · by_cases hd : w.data.getLast? = some 'd'
    · have hgo : goParseDuration w = none := goParseDuration_d_none w hd
      by_cases hl : w.data.length > 1
      · have hl2 : 1 < w.length := hl
        cases hA : goAtoi w.data.dropLast with
        | none => simp [parseDuration, specIntDays, hl, hl2, hd, hA, hgo]
        | some days => simp [parseDuration, specIntDays, hl, hl2, hd, hA, hgo]
      · have hw : w.data = ['d'] := by
          cases hdata : w.data with
          | nil => rw [hdata] at hd; exact Option.noConfusion hd
          | cons c t =>
            cases t with
            | nil =>
              rw [hdata, List.getLast?_singleton] at hd
              have hc : c = 'd' := by simpa using hd
              rw [hc]
            | cons c2 t2 =>
              exfalso
              apply hl
              rw [hdata]
              simp
        have hwl : w.length = 1 := by
          rw [show w.length = w.data.length from rfl, hw]
          rfl
        simp [parseDuration, specIntDays, hd, hw, hwl, hgo, goAtoi]
    · have hspec : specIntDays w = none := by simp [specIntDays, hd]
      have hpd : parseDuration w = goParseDuration w := by
        simp [parseDuration, hd]
      rw [hpd, hspec]
      constructor
      · intro hgn; exact ⟨rfl, hgn⟩
      · rintro ⟨_, hgn⟩; exact hgn
  · intro days hdy
    unfold specIntDays at hdy
    split at hdy
    · rename_i hd
      have hne : w.data.dropLast ≠ [] := by
        intro hc
        rw [hc] at hdy
        simp [goAtoi] at hdy
      have h1 : w.data ≠ [] := by
        intro hc
        rw [hc] at hd
        exact Option.noConfusion hd
      have hlen : w.data.length > 1 := by
        have h2 := List.length_dropLast w.data
        have h3 : 0 < w.data.dropLast.length := List.length_pos.mpr hne
        have h4 : 0 < w.data.length := List.length_pos.mpr h1
        omega
      have hlen2 : 1 < w.length := hlen
      simp [parseDuration, hlen, hlen2, hd, hdy]
    · exact Option.noConfusion hdy
  · intro s now e t h1 h2 h3
    simp only [parseSecretInfo, h1, h2, h3]
    cases hpd : parseDuration w with
    | none => simp [hpd]
    | some dur => simp [hpd]

/-- C7 witness: the `"3d"` alternative and a tracked secret whose
`"24h30m"` lead time is adopted (24.5 hours in nanoseconds). -/
theorem c7_duration_fallback_witness :
    parseDuration "3d" = some (wrap64 (3 * 86400000000000)) ∧
    parseSecretInfo
      ⟨"db", "default", "7",
        [(annExpiresAt, "2024-12-31"), (annWarnBefore, "24h30m")], [], [], "Opaque"⟩
      (dateToNs 2024 12 20) =
      (⟨"db", "default", dateToNs 2024 12 31,
        (parseDuration "24h30m").getD (7 * 86400000000000),
        truncDivNs (goSub (dateToNs 2024 12 31) (dateToNs 2024 12 20)) 86400000000000⟩,
       true) :=
  ⟨(c7_duration_fallback "3d").2.1 3 (by decide),
   (c7_duration_fallback "24h30m").2.2
     ⟨"db", "default", "7",
       [(annExpiresAt, "2024-12-31"), (annWarnBefore, "24h30m")], [], [], "Opaque"⟩
     (dateToNs 2024 12 20) "2024-12-31" (dateToNs 2024 12 31)
     (by decide) (by decide) (by decide)⟩

/-- C7 counterexample: `"200000d"` parses, but 200000 days exceed the signed
64-bit nanosecond range, so the stored lead time is the wrapped value
−1166744073709551616 ns — not 200000 24-hour days as the claim states. -/
theorem c7_wrap_counterexample :
    parseDuration "200000d" = some (-1166744073709551616) ∧
    ¬ ((-1166744073709551616 : Int) = 200000 * 86400000000000) := by
  decide
